import Mathlib

/-!
Verification development for the kleinboy markdown CMS pipeline.

The definitions below are a shallow embedding of the functions in
`src/kleinboy.ts`: the markdown parser, the YAML/TOML/JSON deserializers and
the filesystem are external collaborators, so they enter the embedding as
oracles (function-valued parameters), while every in-repository function
(`findTexts`, `extractTitle`, `extractDescription`, `extractImages`,
`extractFrontmatter`, the merge in `collectArticle`, `collectArticles`,
`collectTags`, `execute`) is translated from its source.
-/

namespace Kleinboy

/-- Codepoint-lexicographic strict order on character lists. Models the
runtime string comparison underlying `localeCompare`, which on the plain
ASCII article paths this program manipulates coincides with code-point
order. -/
def lexLt : List Char → List Char → Bool
  | [], [] => false
  | [], _ :: _ => true
  | _ :: _, [] => false
  | a :: as, b :: bs =>
    if a.toNat < b.toNat then true
    else if b.toNat < a.toNat then false
    else lexLt as bs

/-- Models `String.prototype.localeCompare` as used by the sort comparator:
negative when the receiver sorts first, positive when it sorts last. -/
def localeCompare (a b : String) : Int :=
  if lexLt a.data b.data then -1 else if lexLt b.data a.data then 1 else 0

/-- Numeric value of a digit string, used by the `Date.parse` model. -/
def digitsVal (cs : List Char) : Nat :=
  cs.foldl (fun a c => a * 10 + (c.toNat - 48)) 0

/-- Splits a character list on the dash character, used by the `Date.parse`
model. -/
def splitOnDash : List Char → List (List Char)
  | [] => [[]]
  | c :: rest =>
    let r := splitOnDash rest
    if c = '-' then [] :: r
    else
      match r with
      | [] => [[c]]
      | g :: gs => (c :: g) :: gs

/-- Models the runtime `Date.parse` restricted to the ISO `YYYY-MM-DD` date
strings the spec examples use: the result is strictly monotone in the
calendar date, which is all the sort comparator observes. -/
def dateParse (s : String) : Int :=
  match splitOnDash s.data with
  | [y, m, d] => ((digitsVal y) * 10000 + (digitsVal m) * 100 + digitsVal d : Nat)
  | _ => 0

/-- Models `Array.prototype.join(" ")` on a list of strings. -/
def joinSpace (xs : List String) : String :=
  String.mk (((xs.map String.data).intersperse [' ']).flatten)

/-- Drops the final character when it is whitespace, otherwise returns the
list unchanged. -/
def dropLastIfWs (cs : List Char) : List Char :=
  match cs.getLast? with
  | some c => if c.isWhitespace then cs.dropLast else cs
  | none => cs

/-- Models the call `.replace(/(^\s|\s$)/, "")` in `extractDescription`: the
regex carries no global flag, so only the first match is removed - one
leading whitespace character when the string starts with whitespace,
otherwise one trailing whitespace character when it ends with one. -/
def replaceEdgeWs : List Char → List Char
  | [] => []
  | c :: rest => if c.isWhitespace then rest else dropLastIfWs (c :: rest)

/-- Models the call `.replace(/\s+/, " ")` in `extractDescription`: without
the global flag only the first maximal whitespace run is replaced by a
single space. -/
def replaceFirstWsRun : List Char → List Char
  | [] => []
  | c :: rest =>
    if c.isWhitespace then ' ' :: rest.dropWhile Char.isWhitespace
    else c :: replaceFirstWsRun rest

/-- Models JavaScript `String.prototype.slice(0, e)`: a negative end index
counts back from the end of the string. -/
def jsSliceTo (cs : List Char) (e : Int) : List Char :=
  if e < 0 then cs.take (cs.length - e.natAbs) else cs.take e.toNat

/-- Document tree node, per the unist shape the source traverses: a `type`
tag, an optional `value`, an optional `url`, and - for the `parent`
constructor - a `children` field (the `leaf` constructor models nodes
without a `children` field). -/
inductive MdNode where
  | leaf (type : String) (value : Option String) (url : Option String)
  | parent (type : String) (value : Option String) (url : Option String) (children : List MdNode)

/-- The `type` tag of a node. -/
def MdNode.nodeType : MdNode → String
  | .leaf t _ _ => t
  | .parent t _ _ _ => t

/-- The `value` field of a node. -/
def MdNode.nodeValue : MdNode → Option String
  | .leaf _ v _ => v
  | .parent _ v _ _ => v

/-- Evaluates the optional visitor predicate of `findTexts`; an absent
visitor allows every node. -/
def visitAllows (visitor : Option (MdNode → Bool)) (n : MdNode) : Bool :=
  match visitor with
  | none => true
  | some f => f n

mutual
/-- Embeds `findTexts`: a pruning depth-first collection of text fragments.
A vetoing visitor prunes the subtree; a `text` or `inlineCode` node with a
string value contributes that value; otherwise a node with a `children`
field recurses; otherwise a `code` or `image` node contributes the fixed
placeholder `...`; any other node contributes nothing. -/
def findTexts (visitor : Option (MdNode → Bool)) : MdNode → List String
  | MdNode.leaf t v u =>
    if visitAllows visitor (MdNode.leaf t v u) = false then []
    else if (t = "text" ∨ t = "inlineCode") ∧ v.isSome then [v.getD ""]
    else if t = "code" ∨ t = "image" then ["..."]
    else []
  | MdNode.parent t v u cs =>
    if visitAllows visitor (MdNode.parent t v u cs) = false then []
    else if (t = "text" ∨ t = "inlineCode") ∧ v.isSome then [v.getD ""]
    else findTextsList visitor cs

/-- Recursion of `findTexts` over a `children` list, in document order. -/
def findTextsList (visitor : Option (MdNode → Bool)) : List MdNode → List String
  | [] => []
  | c :: cs => findTexts visitor c ++ findTextsList visitor cs
end

mutual
/-- Embeds `extractTitle`: depth-first search for the first `heading` node,
returning its `findTexts` fragments joined with spaces. -/
def extractTitle : MdNode → Option String
  | MdNode.leaf t v u =>
    if t = "heading" then some (joinSpace (findTexts none (MdNode.leaf t v u)))
    else none
  | MdNode.parent t v u cs =>
    if t = "heading" then some (joinSpace (findTexts none (MdNode.parent t v u cs)))
    else extractTitleList cs

/-- Recursion of `extractTitle` over a `children` list: the first child that
yields a title wins. -/
def extractTitleList : List MdNode → Option String
  | [] => none
  | c :: cs =>
    match extractTitle c with
    | some s => some s
    | none => extractTitleList cs
end

mutual
/-- Embeds `extractImages`: depth-first collection of every `image` node
url, in document order, duplicates retained. A missing url is modelled as
the empty string (the source casts the absent field). -/
def extractImages : MdNode → List String
  | MdNode.leaf t _ u => if t = "image" then [u.getD ""] else []
  | MdNode.parent t _ u cs => if t = "image" then [u.getD ""] else extractImagesList cs

/-- Recursion of `extractImages` over a `children` list. -/
def extractImagesList : List MdNode → List String
  | [] => []
  | c :: cs => extractImages c ++ extractImagesList cs
end

/-- The visitor `extractDescription` passes to `findTexts`, vetoing heading
subtrees. -/
def notHeadingVisitor (n : MdNode) : Bool :=
  if n.nodeType = "heading" then false else true

/-- The options object of `extractDescription`. -/
structure DescOptions where
  maxLength : Option Nat
  ellipsis : Option String

/-- Embeds `extractDescription`: joins the heading-pruned `findTexts`
fragments with spaces, applies the two single-match regex replacements of
the source, and hard-truncates with the configured ellipsis when the result
exceeds the configured maximum length. -/
def extractDescription (node : MdNode) (options : Option DescOptions) : String :=
  let maxLength := (options.bind DescOptions.maxLength).getD 200
  let ellipsis := (options.bind DescOptions.ellipsis).getD "..."
  let texts := findTexts (some notHeadingVisitor) node
  let source := replaceFirstWsRun (replaceEdgeWs (joinSpace texts).data)
  if source.length ≤ maxLength then String.mk source
  else String.mk (jsSliceTo source ((maxLength : Int) - (ellipsis.data.length : Int)) ++ ellipsis.data)

/-- The nested `x-kleinboy` namespace of a frontmatter record. -/
structure KleinboyFrontMatter where
  status : Option String
  title : Option String
  description : Option String
  images : Option (List String)
  published_time : Option String
  modified_time : Option String
deriving DecidableEq

/-- Value stored under one frontmatter key. The source keeps frontmatter as
an open dynamic record; the constructors cover the shapes the program
inspects (`nested` for the `x-kleinboy` namespace, `strs` for tag lists,
`str` for dates) and `other` stands for any value of a shape the program
never looks into. -/
inductive FMValue where
  | str (s : String)
  | flag (b : Bool)
  | strs (xs : List String)
  | nested (k : KleinboyFrontMatter)
  | other
deriving DecidableEq

/-- A frontmatter record, modelled as a partial map from string keys to
values; `none` means the key is absent. -/
abbrev FrontMatter := String → Option FMValue

/-- The empty frontmatter record. -/
def emptyFM : FrontMatter := fun _ => none

/-- Models the object spread that merges two frontmatter records: a key of
the override record wins, any other key falls back to the base record. -/
def spreadFM (base override : FrontMatter) : FrontMatter :=
  fun k =>
    match override k with
    | some v => some v
    | none => base k

/-- Embeds the merge inside `collectArticle`: when at least one of the two
records exists, the sidecar record is spread over the inline record;
otherwise the result is the empty record. -/
def mergeFrontmatter (markdownFM metadataFM : Option FrontMatter) : FrontMatter :=
  if metadataFM.isSome ∨ markdownFM.isSome then
    spreadFM (markdownFM.getD emptyFM) (metadataFM.getD emptyFM)
  else emptyFM

/-- Models the access `frontmatter["x-kleinboy"]` followed by optional
chaining: a value of any other shape behaves as an absent namespace. -/
def fmNamespace (fm : FrontMatter) : Option KleinboyFrontMatter :=
  match fm "x-kleinboy" with
  | some (FMValue.nested k) => some k
  | _ => none

/-- Models the access `frontmatter.tags` as consumed by the tag loop: a
string-list value is used, anything else behaves as absent. -/
def fmTags (fm : FrontMatter) : Option (List String) :=
  match fm "tags" with
  | some (FMValue.strs ts) => some ts
  | _ => none

/-- Models the access `frontmatter.date`. -/
def fmDate (fm : FrontMatter) : Option String :=
  match fm "date" with
  | some (FMValue.str s) => some s
  | _ => none

mutual
/-- Embeds `extractFrontmatter`: depth-first search for the first `yaml` or
`toml` node, whose value is handed to the matching external parser oracle.
The oracle may return `none` (the parser yielded nothing), in which case
the search continues in the enclosing recursion, exactly as the null check
in the source loop does. -/
def extractFrontmatter (parseYaml parseToml : String → Option FrontMatter) :
    MdNode → Option FrontMatter
  | MdNode.leaf t v _ =>
    if t = "yaml" ∨ t = "toml" then
      if t = "toml" then v.bind parseToml else v.bind parseYaml
    else none
  | MdNode.parent t v _ cs =>
    if t = "yaml" ∨ t = "toml" then
      if t = "toml" then v.bind parseToml else v.bind parseYaml
    else extractFrontmatterList parseYaml parseToml cs

/-- Recursion of `extractFrontmatter` over a `children` list: the first
child producing a record wins. -/
def extractFrontmatterList (parseYaml parseToml : String → Option FrontMatter) :
    List MdNode → Option FrontMatter
  | [] => none
  | c :: cs =>
    match extractFrontmatter parseYaml parseToml c with
    | some fm => some fm
    | none => extractFrontmatterList parseYaml parseToml cs
end

/-- Run configuration, per `types.ts`. -/
structure Config where
  untitled : Option String
  dumpArticleMetadata : Bool
  dumpArticleAST : Bool
  dumpArticleHTML : Bool
  dumpTagMetadata : Bool
deriving DecidableEq

/-- Canonical per-article record, per `types.ts`. -/
structure ArticleMetadata where
  path : String
  sourceType : Option String
  sourcePath : Option String
  title : String
  description : Option String
  tags : Option (List String)
  images : Option (List String)
  status : Option String
  published_time : Option String
  modified_time : Option String
deriving DecidableEq

/-- Ordering/identity projection of an article, per `types.ts`. -/
structure ArticleIndex where
  path : String
  status : Option String
  published_time : Option String
deriving DecidableEq

/-- Embeds `makeArticleIndex`. -/
def makeArticleIndex (a : ArticleMetadata) : ArticleIndex :=
  ⟨a.path, a.status, a.published_time⟩

/-- External deserializer oracles for the embedded YAML and TOML parsers. -/
structure ParseEnv where
  parseYaml : String → Option FrontMatter
  parseToml : String → Option FrontMatter

/-- Embeds `collectArticle`. The file read and the markdown parse are
external, so the parsed AST and the result of the sidecar probe
(`findMetadataFrontmatter`, itself filesystem plus deserializer work) are
inputs; everything from the frontmatter merge to the assembled record is
translated from the source. The debug dump writes are pure side effects
accounted for separately in `execute`. -/
def collectArticle (penv : ParseEnv) (markdownAST : MdNode)
    (metadataFrontmatter : Option FrontMatter)
    (markdownPath articlePath : String) (config : Config) : ArticleMetadata :=
  let untitled := config.untitled.getD "(Untitled)"
  let markdownFrontmatter := extractFrontmatter penv.parseYaml penv.parseToml markdownAST
  let frontmatter := mergeFrontmatter markdownFrontmatter metadataFrontmatter
  let ns := fmNamespace frontmatter
  ⟨articlePath,
   some "markdown",
   some markdownPath,
   (match ns.bind KleinboyFrontMatter.title with
    | some t => t
    | none => (extractTitle markdownAST).getD untitled),
   some (match ns.bind KleinboyFrontMatter.description with
    | some d => d
    | none => extractDescription markdownAST none),
   fmTags frontmatter,
   some ((ns.bind KleinboyFrontMatter.images).getD (extractImages markdownAST)),
   ns.bind KleinboyFrontMatter.status,
   (match ns.bind KleinboyFrontMatter.published_time with
    | some p => some p
    | none => fmDate frontmatter),
   (match ns.bind KleinboyFrontMatter.modified_time with
    | some m => some m
    | none => fmDate frontmatter)⟩

/-- Property lookup on the association-list model of a JavaScript object. -/
def objGet {T : Type} : List (String × T) → String → Option T
  | [], _ => none
  | kv :: rest, k => if kv.1 = k then some kv.2 else objGet rest k

/-- Property assignment on the association-list model of a JavaScript
object: an existing key keeps its position and gets the new value, a new
key is appended. -/
def objSet {T : Type} : List (String × T) → String → T → List (String × T)
  | [], k, v => [(k, v)]
  | kv :: rest, k, v => if kv.1 = k then (k, v) :: rest else kv :: objSet rest k v

/-- Embeds `register` (via `getOrPrepare`): stores `v` under the outer key
`k1` and the inner key `k2`, creating the inner object when absent. -/
def register {T : Type} (m : List (String × List (String × T))) (k1 k2 : String) (v : T) :
    List (String × List (String × T)) :=
  objSet m k1 (objSet ((objGet m k1).getD []) k2 v)

/-- Embeds the comparator passed to `orderedArticles.sort`. -/
def compareArticleIndex (a b : ArticleIndex) : Int :=
  match a.published_time, b.published_time with
  | none, none => -(localeCompare a.path b.path)
  | none, some _ => -1
  | some _, none => 1
  | some x, some y => -(dateParse x - dateParse y)

/-- Sort-position order induced by the comparator: `a` may precede `b`. -/
def articleLE (a b : ArticleIndex) : Prop := compareArticleIndex a b ≤ 0

instance : DecidableRel articleLE := fun _ _ => inferInstanceAs (Decidable (_ ≤ _))

/-- Article registry, per the source. -/
structure ArticleRegistry where
  articles : List (String × ArticleMetadata)
  orderedArticles : List ArticleIndex

/-- External environment of one run: filesystem facts and parser oracles.
`files` is the glob result under the articles root, `fileAST` the parsed
document of a path, `fileSidecar` the result of the sidecar probe for a
path, and `tagPageExists` the existence check for `tags/<key>.md`. -/
structure FsEnv where
  rootExists : Bool
  files : List String
  fileAST : String → MdNode
  fileSidecar : String → Option FrontMatter
  parse : ParseEnv
  tagPageExists : String → Bool

/-- Embeds the logical-path derivation in `collectArticles`: strip the
trailing `.md` (the anchored single-match regex) and then the
`articles/` root prefix when present. -/
def articlePathOf (markdownPath : String) : String :=
  let stripped :=
    if markdownPath.data.reverse.take 3 = ['d', 'm', '.'] then
      markdownPath.data.take (markdownPath.data.length - 3)
    else markdownPath.data
  let pre := "articles/".data
  if pre.isPrefixOf stripped then String.mk (stripped.drop pre.length)
  else String.mk stripped

/-- The per-file loop of `collectArticles`: collect each markdown file and
store it in the articles object keyed by its logical path (last write wins
on key collision). -/
def insertArticles (env : FsEnv) (config : Config) :
    List String → List (String × ArticleMetadata) → List (String × ArticleMetadata)
  | [], acc => acc
  | mdPath :: rest, acc =>
    let ap := articlePathOf mdPath
    let md := collectArticle env.parse (env.fileAST mdPath) (env.fileSidecar mdPath) mdPath ap config
    insertArticles env config rest (objSet acc md.path md)

/-- Message of the error thrown by `collectArticles` when the articles root
directory is missing. -/
def missingArticlesMessage : String := "articles directory missing"

/-- Embeds `collectArticles`: fail when the articles root does not exist,
otherwise collect every globbed file and sort the projected indices with
the comparator. -/
def collectArticles (env : FsEnv) (config : Config) : Except String ArticleRegistry :=
  if env.rootExists = false then Except.error missingArticlesMessage
  else
    let articles := insertArticles env config env.files []
    let ordered := List.insertionSort articleLE (articles.map (fun kv => makeArticleIndex kv.2))
    Except.ok ⟨articles, ordered⟩

/-- Tag display record, per the source. -/
structure TagMetadata where
  key : String
  title : String
  article : Option ArticleMetadata
deriving DecidableEq

/-- Tag registry, per the source. -/
structure TagRegistry where
  tags : List (String × TagMetadata)
  tagToArticles : List (String × List (String × ArticleIndex))

/-- The inner loop of `collectTags`: register one article under each of its
tags; an absent tags field contributes nothing. -/
def registerArticleTags (art : ArticleMetadata)
    (acc : List (String × List (String × ArticleIndex))) :
    List (String × List (String × ArticleIndex)) :=
  match art.tags with
  | none => acc
  | some ts => ts.foldl (fun a tag => register a tag art.path (makeArticleIndex art)) acc

/-- The first loop of `collectTags`, over the values of the articles
object. -/
def buildTagToArticles :
    List (String × ArticleMetadata) → List (String × List (String × ArticleIndex)) →
    List (String × List (String × ArticleIndex))
  | [], acc => acc
  | kv :: rest, acc => buildTagToArticles rest (registerArticleTags kv.2 acc)

/-- Path of the dedicated markdown page of a tag. -/
def tagPagePathOf (key : String) : String := "tags/" ++ key ++ ".md"

/-- One step of the second loop of `collectTags`: when the dedicated tag
page exists it is collected as a regular article whose title becomes the
display title, otherwise a synthetic record titled with the raw key is
made. The source guards the collected title with `?? key`, which the
non-optional title type makes vacuous. -/
def collectTagMetadata (env : FsEnv) (config : Config) (key : String) : TagMetadata :=
  if env.tagPageExists key then
    let mdPath := tagPagePathOf key
    let article := collectArticle env.parse (env.fileAST mdPath) (env.fileSidecar mdPath)
      mdPath ("tags/" ++ key) config
    ⟨key, article.title, some article⟩
  else ⟨key, key, none⟩

/-- The second loop of `collectTags`, over the keys of the tag-to-article
object. -/
def buildTags (env : FsEnv) (config : Config) :
    List String → List (String × TagMetadata) → List (String × TagMetadata)
  | [], acc => acc
  | key :: rest, acc => buildTags env config rest (objSet acc key (collectTagMetadata env config key))

/-- Embeds `collectTags`. -/
def collectTags (env : FsEnv) (reg : ArticleRegistry) (config : Config) : TagRegistry :=
  let t2a := buildTagToArticles reg.articles []
  let tags := buildTags env config (t2a.map Prod.fst) []
  ⟨tags, t2a⟩

/-- Debug dump artifact paths written while collecting one article, per the
configuration flags. -/
def articleArtifacts (config : Config) (articlePath : String) : List String :=
  (if config.dumpArticleAST then ["generated/ast/" ++ articlePath ++ ".json"] else []) ++
  (if config.dumpArticleHTML then ["generated/html/" ++ articlePath ++ ".html"] else [])

/-- Debug dump artifact paths written while collecting tag pages. -/
def tagArtifacts (env : FsEnv) (config : Config) (keys : List String) : List String :=
  keys.foldl
    (fun acc key =>
      acc ++ (if env.tagPageExists key then articleArtifacts config ("tags/" ++ key) else [])) []

/-- Embeds `execute`, with the filesystem writes reified as the list of
artifact paths produced on success: per-article debug dumps, tag page
debug dumps, and the two registry JSON files. A failing `collectArticles`
aborts before any write happens. -/
def execute (env : FsEnv) (config : Config) : Except String (List String) :=
  match collectArticles env config with
  | Except.error e => Except.error e
  | Except.ok reg =>
    let tagReg := collectTags env reg config
    Except.ok
      ((env.files.map articlePathOf).foldl (fun acc p => acc ++ articleArtifacts config p) [] ++
       tagArtifacts env config (tagReg.tagToArticles.map Prod.fst) ++
       (if config.dumpArticleMetadata then ["generated/articles.json"] else []) ++
       (if config.dumpTagMetadata then ["generated/tags.json"] else []))

/-- The pre-truncation source string of `extractDescription`, named so the
theorems can speak about it: heading-pruned `findTexts`, space join, and the
two single-match replacements, exactly as the embedded function computes
it. -/
def descriptionSource (node : MdNode) : List Char :=
  replaceFirstWsRun (replaceEdgeWs (joinSpace (findTexts (some notHeadingVisitor) node)).data)

/-- Follows the claim words for the sort order: an undated article may
precede anything except nothing, a dated article never precedes an undated
one, two undated articles are in descending (reverse code-point
lexicographic) path order, two dated articles are in descending parsed-date
order. -/
def specSortedBefore (a b : ArticleIndex) : Prop :=
  match a.published_time, b.published_time with
  | none, none => lexLt a.path.data b.path.data = false
  | none, some _ => True
  | some _, none => False
  | some x, some y => dateParse y ≤ dateParse x

/-- Follows the claim words for the description source: collapse every
whitespace run to a single space. -/
def specCollapseWs : List Char → List Char
  | [] => []
  | [c] => if c.isWhitespace then [' '] else [c]
  | c :: d :: rest =>
    if c.isWhitespace ∧ d.isWhitespace then specCollapseWs (d :: rest)
    else (if c.isWhitespace then ' ' else c) :: specCollapseWs (d :: rest)

/-- Follows the claim words for the description source: trim leading and
trailing whitespace. -/
def specTrimWs (cs : List Char) : List Char :=
  ((cs.dropWhile Char.isWhitespace).reverse.dropWhile Char.isWhitespace).reverse

/-- Follows the claim words for the description source pipeline: join the
heading-pruned fragments with spaces, collapse every internal whitespace
run, and trim both ends. -/
def specDescriptionSource (node : MdNode) : List Char :=
  specTrimWs (specCollapseWs (joinSpace (findTexts (some notHeadingVisitor) node)).data)

mutual
/-- Literal values of every `text` or `inlineCode` node of a tree, used to
state that `findTexts` output comes only from such nodes or the
placeholder. -/
def textValues : MdNode → List String
  | MdNode.leaf t v _ =>
    if (t = "text" ∨ t = "inlineCode") ∧ v.isSome then [v.getD ""] else []
  | MdNode.parent t v _ cs =>
    (if (t = "text" ∨ t = "inlineCode") ∧ v.isSome then [v.getD ""] else []) ++ textValuesList cs

/-- Recursion of `textValues` over a `children` list. -/
def textValuesList : List MdNode → List String
  | [] => []
  | c :: cs => textValues c ++ textValuesList cs
end

/-- Default run configuration used by the concrete examples. -/
def defaultConfig : Config := ⟨none, false, false, false, false⟩

/-- Parse environment whose oracles return nothing, for examples without
frontmatter. -/
def trivialParseEnv : ParseEnv := ⟨fun _ => none, fun _ => none⟩

/-- Inline frontmatter of the merge example: title "A". -/
def inlineTitleA : FrontMatter :=
  fun k => if k = "title" then some (FMValue.str "A") else none

/-- Sidecar frontmatter of the merge example: title "B". -/
def sidecarTitleB : FrontMatter :=
  fun k => if k = "title" then some (FMValue.str "B") else none

/-- C2: the merged frontmatter record is the shallow per-key merge in which
the sidecar keys override the inline keys, with the inline record as base;
with neither record present every key is absent (the empty record); in
particular inline title "A" merged with sidecar title "B" yields title
"B". -/
theorem C2_merge_precedence :
    (∀ (markdownFM metadataFM : Option FrontMatter) (k : String),
      mergeFrontmatter markdownFM metadataFM k =
        match (metadataFM.getD emptyFM) k with
        | some v => some v
        | none => (markdownFM.getD emptyFM) k)
    ∧ (∀ k, mergeFrontmatter none none k = none)
    ∧ mergeFrontmatter (some inlineTitleA) (some sidecarTitleB) "title" =
        some (FMValue.str "B") := by
  refine ⟨?_, fun k => rfl, rfl⟩
  intro mdFM mFM k
  cases mdFM <;> cases mFM <;> rfl

/-- Namespace record of the title example, holding only title "C". -/
def nsTitleC : KleinboyFrontMatter := ⟨none, some "C", none, none, none, none⟩

/-- Inline frontmatter of the title example: an x-kleinboy namespace with
title "C". -/
def inlineNsTitleC : FrontMatter :=
  fun k => if k = "x-kleinboy" then some (FMValue.nested nsTitleC) else none

/-- Parse environment recognizing the marker frontmatter text of the title
example. -/
def titleParseEnv : ParseEnv :=
  ⟨fun s => if s = "title: C" then some inlineNsTitleC else none, fun _ => none⟩

/-- Document of the title example: an embedded yaml block and a heading
"D". -/
def titleExampleAST : MdNode :=
  MdNode.parent "root" none none
    [MdNode.leaf "yaml" (some "title: C") none,
     MdNode.parent "heading" none none [MdNode.leaf "text" (some "D") none]]

/-- C3: the collected title is the merged x-kleinboy title when present,
otherwise the first heading text, otherwise the configured default, which
itself defaults to "(Untitled)"; in particular an inline namespace title
"C" wins over the document heading "D". -/
theorem C3_title_resolution :
    (∀ (penv : ParseEnv) (ast : MdNode) (sidecar : Option FrontMatter)
        (mdPath apath : String) (config : Config),
      (collectArticle penv ast sidecar mdPath apath config).title =
        match (fmNamespace (mergeFrontmatter
            (extractFrontmatter penv.parseYaml penv.parseToml ast) sidecar)).bind
            KleinboyFrontMatter.title with
        | some t => t
        | none => (extractTitle ast).getD (config.untitled.getD "(Untitled)"))
    ∧ (collectArticle titleParseEnv titleExampleAST none "articles/x.md" "x"
        defaultConfig).title = "C"
    ∧ extractTitle titleExampleAST = some "D" := by
  refine ⟨?_, rfl, rfl⟩
  intro penv ast sidecar mdPath apath config
  rfl

/-- Leaf standing for an empty parsed document in witnesses. -/
def rootLeaf : MdNode := MdNode.leaf "root" none none

/-- C9: a collected article always carries a defined description and a
defined images list - falling back to the extracted description and the
extracted images when the merged namespace omits them - while the tags
field is absent exactly when the merged frontmatter has no usable tags
key. -/
theorem C9_field_presence :
    ∀ (penv : ParseEnv) (ast : MdNode) (sidecar : Option FrontMatter)
      (mdPath apath : String) (config : Config),
      (collectArticle penv ast sidecar mdPath apath config).description.isSome = true
      ∧ (collectArticle penv ast sidecar mdPath apath config).images.isSome = true
      ∧ ((collectArticle penv ast sidecar mdPath apath config).tags = none ↔
          fmTags (mergeFrontmatter
            (extractFrontmatter penv.parseYaml penv.parseToml ast) sidecar) = none)
      ∧ ((fmNamespace (mergeFrontmatter
            (extractFrontmatter penv.parseYaml penv.parseToml ast) sidecar)).bind
            KleinboyFrontMatter.description = none →
          (collectArticle penv ast sidecar mdPath apath config).description =
            some (extractDescription ast none))
      ∧ ((fmNamespace (mergeFrontmatter
            (extractFrontmatter penv.parseYaml penv.parseToml ast) sidecar)).bind
            KleinboyFrontMatter.images = none →
          (collectArticle penv ast sidecar mdPath apath config).images =
            some (extractImages ast)) := by
  intro penv ast sidecar mdPath apath config
  refine ⟨rfl, rfl, Iff.rfl, ?_, ?_⟩
  · intro h
    show some _ = _
    rw [h]
  · intro h
    show some _ = _
    rw [h]
    rfl

/-- Witness for the C9 fallbacks at a concrete empty document. -/
theorem C9_witness :
    (collectArticle trivialParseEnv rootLeaf none "articles/p.md" "p" defaultConfig).description =
      some (extractDescription rootLeaf none)
    ∧ (collectArticle trivialParseEnv rootLeaf none "articles/p.md" "p" defaultConfig).images =
      some (extractImages rootLeaf) :=
  ⟨(C9_field_presence trivialParseEnv rootLeaf none "articles/p.md" "p" defaultConfig).2.2.2.1 rfl,
   (C9_field_presence trivialParseEnv rootLeaf none "articles/p.md" "p" defaultConfig).2.2.2.2 rfl⟩

/-- Document of the description-pipeline counterexample: a single text node
whose value has leading whitespace, trailing whitespace, and an internal
whitespace run. -/
def wsExampleLeaf : MdNode := MdNode.leaf "text" (some " a  b ") none

/-- C5 counterexample: the description source is not trimmed-and-collapsed
as the claim states; the single-match replacements leave the trailing
space, so the code yields "a b " where the claimed pipeline yields
"a b". -/
theorem C5_counterexample :
    extractDescription wsExampleLeaf none ≠ String.mk (specDescriptionSource wsExampleLeaf)
    ∧ extractDescription wsExampleLeaf none = "a b "
    ∧ String.mk (specDescriptionSource wsExampleLeaf) = "a b" :=
  ⟨by decide, rfl, rfl⟩

/-- C5 amended: the description source is the space join of the
heading-pruned findTexts fragments with only the first leading (else first
trailing) whitespace character removed and only the first whitespace run
collapsed, and the truncation step applies to exactly that source. -/
theorem C5_description_pipeline :
    ∀ (node : MdNode) (options : Option DescOptions),
      descriptionSource node =
        replaceFirstWsRun (replaceEdgeWs
          (joinSpace (findTexts (some notHeadingVisitor) node)).data)
      ∧ extractDescription node options =
        (if (descriptionSource node).length ≤ (options.bind DescOptions.maxLength).getD 200 then
          String.mk (descriptionSource node)
        else
          String.mk (jsSliceTo (descriptionSource node)
            (((options.bind DescOptions.maxLength).getD 200 : Int) -
              ((((options.bind DescOptions.ellipsis).getD "...").data.length : Nat) : Int)) ++
            ((options.bind DescOptions.ellipsis).getD "...").data)) :=
  fun _ _ => ⟨rfl, rfl⟩

/-- Document of the truncation counterexample. -/
def abcdeLeaf : MdNode := MdNode.leaf "text" (some "abcde") none

/-- C4 counterexample: with maxLength 1 and the three-character ellipsis
the slice bound is negative, JavaScript slice counts it from the end of
the source, and the result "abc..." exceeds maxLength. -/
theorem C4_counterexample :
    ¬ ((extractDescription abcdeLeaf (some ⟨some 1, some "..."⟩)).data.length ≤ 1)
    ∧ extractDescription abcdeLeaf (some ⟨some 1, some "..."⟩) = "abc..." :=
  ⟨by decide, rfl⟩

/-- C4 amended: provided the configured ellipsis is not longer than the
configured maxLength, the description never exceeds maxLength; when the
source exceeds maxLength the result is the source hard-truncated to
maxLength minus the ellipsis length with the ellipsis appended, hence ends
with the ellipsis; otherwise the source is returned unmodified. -/
theorem C4_truncation_bound :
    ∀ (node : MdNode) (options : Option DescOptions),
      ((options.bind DescOptions.ellipsis).getD "...").data.length ≤
        (options.bind DescOptions.maxLength).getD 200 →
      (extractDescription node options).data.length ≤
        (options.bind DescOptions.maxLength).getD 200
      ∧ ((options.bind DescOptions.maxLength).getD 200 < (descriptionSource node).length →
          (extractDescription node options).data =
            (descriptionSource node).take
              ((options.bind DescOptions.maxLength).getD 200 -
                ((options.bind DescOptions.ellipsis).getD "...").data.length) ++
            ((options.bind DescOptions.ellipsis).getD "...").data
          ∧ ((options.bind DescOptions.ellipsis).getD "...").data <:+
              (extractDescription node options).data)
      ∧ ((descriptionSource node).length ≤ (options.bind DescOptions.maxLength).getD 200 →
          extractDescription node options = String.mk (descriptionSource node)) := by
  intro node options hle
  have hdef : extractDescription node options =
      if (descriptionSource node).length ≤ (options.bind DescOptions.maxLength).getD 200 then
        String.mk (descriptionSource node)
      else
        String.mk (jsSliceTo (descriptionSource node)
          (((options.bind DescOptions.maxLength).getD 200 : Int) -
            ((((options.bind DescOptions.ellipsis).getD "...").data.length : Nat) : Int)) ++
          ((options.bind DescOptions.ellipsis).getD "...").data) := rfl
  by_cases hlen : (descriptionSource node).length ≤ (options.bind DescOptions.maxLength).getD 200
  · rw [hdef, if_pos hlen]
    exact ⟨hlen, fun hgt => absurd hlen (by omega), fun _ => rfl⟩
  · rw [hdef, if_neg hlen]
    have hslice : jsSliceTo (descriptionSource node)
        (((options.bind DescOptions.maxLength).getD 200 : Int) -
          ((((options.bind DescOptions.ellipsis).getD "...").data.length : Nat) : Int)) =
        (descriptionSource node).take
          ((options.bind DescOptions.maxLength).getD 200 -
            ((options.bind DescOptions.ellipsis).getD "...").data.length) := by
      unfold jsSliceTo
      rw [if_neg (by omega)]
      congr 1
      omega
    refine ⟨?_, fun _ => ⟨by rw [hslice], ?_⟩, fun h => absurd h hlen⟩
    · rw [hslice]
      simp only [List.length_append, List.length_take]
      omega
    · rw [hslice]
      exact List.suffix_append _ _

/-- Witness for the C4 bound and the untruncated branch at a concrete
document with the default options. -/
theorem C4_witness :
    (extractDescription abcdeLeaf none).data.length ≤ 200
    ∧ extractDescription abcdeLeaf none = String.mk (descriptionSource abcdeLeaf) :=
  ⟨(C4_truncation_bound abcdeLeaf none (by decide)).1,
   (C4_truncation_bound abcdeLeaf none (by decide)).2.2 (by decide)⟩

/-- Positivity of the node size measure, for the fuel induction. -/
theorem mdNode_sizeOf_pos (n : MdNode) : 0 < sizeOf n := by
  cases n with
  | leaf t v u => simp only [MdNode.leaf.sizeOf_spec]; omega
  | parent t v u cs => simp only [MdNode.parent.sizeOf_spec]; omega

/-- A string collected over a children list comes from one child. -/
theorem findTextsList_mem (visitor : Option (MdNode → Bool)) :
    ∀ (cs : List MdNode) (s : String), s ∈ findTextsList visitor cs →
      ∃ c ∈ cs, s ∈ findTexts visitor c := by
  intro cs
  induction cs with
  | nil => intro s h; simp [findTextsList] at h
  | cons c rest ih =>
    intro s h
    simp only [findTextsList] at h
    rcases List.mem_append.mp h with h1 | h1
    · exact ⟨c, List.mem_cons_self c rest, h1⟩
    · rcases ih s h1 with ⟨c2, hc2, hs⟩
      exact ⟨c2, List.mem_cons_of_mem c hc2, hs⟩

/-- Text values of a member child inject into the list collection. -/
theorem textValuesList_mem (c : MdNode) :
    ∀ (cs : List MdNode), c ∈ cs → ∀ s ∈ textValues c, s ∈ textValuesList cs := by
  intro cs
  induction cs with
  | nil => intro h; simp at h
  | cons d rest ih =>
    intro hc s hs
    rcases List.mem_cons.mp hc with h1 | h1
    · subst h1
      simp only [textValuesList]
      exact List.mem_append.mpr (Or.inl hs)
    · simp only [textValuesList]
      exact List.mem_append.mpr (Or.inr (ih h1 s hs))

/-- Fuel-indexed soundness of the findTexts output: every collected string
is the placeholder or the value of a text or inline-code node of the
tree. -/
theorem findTexts_sound_aux :
    ∀ (k : Nat) (n : MdNode), sizeOf n ≤ k →
      ∀ (visitor : Option (MdNode → Bool)) (s : String),
        s ∈ findTexts visitor n → s = "..." ∨ s ∈ textValues n := by
  intro k
  induction k with
  | zero =>
    intro n hn
    exact absurd hn (by have := mdNode_sizeOf_pos n; omega)
  | succ k ih =>
    intro n hn visitor s hs
    cases n with
    | leaf t v u =>
      simp only [findTexts] at hs
      split_ifs at hs with h1 h2 h3
      · simp at hs
      · right
        simp only [textValues, if_pos h2]
        simpa using hs
      · left
        simpa using hs
      · simp at hs
    | parent t v u cs =>
      simp only [findTexts] at hs
      split_ifs at hs with h1 h2
      · simp at hs
      · right
        simp only [textValues, if_pos h2]
        exact List.mem_append.mpr (Or.inl (by simpa using hs))
      · rcases findTextsList_mem visitor cs s hs with ⟨c, hc, hsc⟩
        have hlt : sizeOf c < sizeOf cs := List.sizeOf_lt_of_mem hc
        rw [MdNode.parent.sizeOf_spec] at hn
        rcases ih c (by omega) visitor s hsc with h | h
        · exact Or.inl h
        · right
          simp only [textValues]
          exact List.mem_append.mpr (Or.inr (textValuesList_mem c cs hc s h))

/-- C6: every string emitted by findTexts is either the fixed placeholder
or the literal value of some text or inline-code node, so code-block and
image payloads never leak; a childless code or image node emits exactly
the placeholder; a text or inline-code node with a string value emits
exactly that value; a childless node of any other kind emits nothing; a
node vetoed by the visitor is pruned with its whole subtree. -/
theorem C6_findTexts_placeholder :
    (∀ (visitor : Option (MdNode → Bool)) (n : MdNode) (s : String),
      s ∈ findTexts visitor n → s = "..." ∨ s ∈ textValues n)
    ∧ (∀ (visitor : Option (MdNode → Bool)) (t : String) (v u : Option String),
        visitAllows visitor (MdNode.leaf t v u) = true → (t = "code" ∨ t = "image") →
        findTexts visitor (MdNode.leaf t v u) = ["..."])
    ∧ (∀ (visitor : Option (MdNode → Bool)) (n : MdNode) (v : String),
        visitAllows visitor n = true →
        (n.nodeType = "text" ∨ n.nodeType = "inlineCode") →
        n.nodeValue = some v → findTexts visitor n = [v])
    ∧ (∀ (visitor : Option (MdNode → Bool)) (t : String) (v u : Option String),
        visitAllows visitor (MdNode.leaf t v u) = true →
        ¬(t = "text" ∨ t = "inlineCode") → ¬(t = "code" ∨ t = "image") →
        findTexts visitor (MdNode.leaf t v u) = [])
    ∧ (∀ (f : MdNode → Bool) (n : MdNode), f n = false → findTexts (some f) n = []) := by
  refine ⟨?_, ?_, ?_, ?_, ?_⟩
  · intro visitor n s hs
    exact findTexts_sound_aux (sizeOf n) n (Nat.le_refl _) visitor s hs
  · intro visitor t v u hv ht
    have hnt : ¬((t = "text" ∨ t = "inlineCode") ∧ v.isSome = true) := by
      rcases ht with h | h <;> subst h <;> simp
    simp [findTexts, hv, hnt, ht]
  · intro visitor n v hv htype hval
    cases n with
    | leaf t vv u =>
      simp only [MdNode.nodeType] at htype
      simp only [MdNode.nodeValue] at hval
      subst hval
      simp [findTexts, hv, htype]
    | parent t vv u cs =>
      simp only [MdNode.nodeType] at htype
      simp only [MdNode.nodeValue] at hval
      subst hval
      simp [findTexts, hv, htype]
  · intro visitor t v u hv h1 h2
    simp [findTexts, hv, h1, h2]
  · intro f n hf
    cases n <;> simp [findTexts, visitAllows, hf]

/-- Witness for the C6 case equations at concrete nodes. -/
theorem C6_witness :
    findTexts none (MdNode.leaf "code" (some "secret") none) = ["..."]
    ∧ findTexts none (MdNode.leaf "text" (some "x") none) = ["x"]
    ∧ findTexts none (MdNode.leaf "html" (some "<b>") none) = []
    ∧ findTexts (some notHeadingVisitor)
        (MdNode.parent "heading" none none [MdNode.leaf "text" (some "x") none]) = []
    ∧ ("..." = "..." ∨ "..." ∈ textValues (MdNode.leaf "code" (some "secret") none)) :=
  ⟨C6_findTexts_placeholder.2.1 none "code" (some "secret") none rfl (Or.inl rfl),
   C6_findTexts_placeholder.2.2.1 none (MdNode.leaf "text" (some "x") none) "x" rfl
     (Or.inl rfl) rfl,
   C6_findTexts_placeholder.2.2.2.1 none "html" (some "<b>") none rfl (by decide) (by decide),
   C6_findTexts_placeholder.2.2.2.2 notHeadingVisitor
     (MdNode.parent "heading" none none [MdNode.leaf "text" (some "x") none]) rfl,
   C6_findTexts_placeholder.1 none (MdNode.leaf "code" (some "secret") none) "..."
     (by decide)⟩

/-- Linearity-style lemma for the codepoint order: a strict comparison
factors through any middle list. -/
theorem lexLt_or_of_lexLt :
    ∀ (a b c : List Char), lexLt a c = true → lexLt a b = true ∨ lexLt b c = true := by
  intro a
  induction a with
  | nil =>
    intro b c h
    cases b with
    | nil => exact Or.inr h
    | cons y bs => exact Or.inl rfl
  | cons x as ih =>
    intro b c h
    cases c with
    | nil => simp [lexLt] at h
    | cons z cs =>
      cases b with
      | nil => exact Or.inr rfl
      | cons y bs =>
        simp only [lexLt] at h ⊢
        by_cases hxz : x.toNat < z.toNat
        · by_cases hxy : x.toNat < y.toNat
          · left; simp [hxy]
          · right
            have hyz : y.toNat < z.toNat := by omega
            simp [hyz]
        · by_cases hzx : z.toNat < x.toNat
          · simp [hxz, hzx] at h
          · simp [hxz, hzx] at h
            by_cases hxy : x.toNat < y.toNat
            · left; simp [hxy]
            · by_cases hyx : y.toNat < x.toNat
              · right
                have hyz : y.toNat < z.toNat := by omega
                simp [hyz]
              · rcases ih bs cs h with h2 | h2
                · left; simp [hxy, hyx, h2]
                · right
                  have h3 : ¬ y.toNat < z.toNat := by omega
                  have h4 : ¬ z.toNat < y.toNat := by omega
                  simp [h3, h4, h2]

/-- Asymmetry of the codepoint order. -/
theorem lexLt_asymm :
    ∀ (a b : List Char), lexLt a b = true → lexLt b a = true → False := by
  intro a
  induction a with
  | nil =>
    intro b h1 h2
    cases b with
    | nil => simp [lexLt] at h1
    | cons y bs => simp [lexLt] at h2
  | cons x as ih =>
    intro b h1 h2
    cases b with
    | nil => simp [lexLt] at h1
    | cons y bs =>
      simp only [lexLt] at h1 h2
      by_cases hxy : x.toNat < y.toNat
      · have h3 : ¬ y.toNat < x.toNat := by omega
        simp [h3, Nat.lt_asymm hxy] at h2
        omega
      · by_cases hyx : y.toNat < x.toNat
        · simp [hxy, hyx] at h1
        · simp [hxy, hyx] at h1 h2
          exact ih bs h1 h2

/-- Sign characterization of the undated comparator branch. -/
theorem neg_localeCompare_nonpos (a b : String) :
    (-(localeCompare a b) ≤ 0) ↔ lexLt a.data b.data = false := by
  unfold localeCompare
  split_ifs with h1 h2
  · norm_num [h1]
  · simp only [Bool.not_eq_true] at h1
    norm_num [h1]
  · simp only [Bool.not_eq_true] at h1
    norm_num [h1]

/-- Case characterization of the comparator order. -/
theorem articleLE_iff (a b : ArticleIndex) :
    articleLE a b ↔
      match a.published_time, b.published_time with
      | none, none => lexLt a.path.data b.path.data = false
      | none, some _ => True
      | some _, none => False
      | some x, some y => dateParse y ≤ dateParse x := by
  unfold articleLE compareArticleIndex
  rcases a.published_time with _ | x <;> rcases b.published_time with _ | y
  · exact neg_localeCompare_nonpos _ _
  · simp
  · simp
  · show (-(dateParse x - dateParse y) ≤ 0) ↔ dateParse y ≤ dateParse x
    omega

instance : IsTrans ArticleIndex articleLE := by
  constructor
  intro a b c hab hbc
  rw [articleLE_iff] at hab hbc ⊢
  rcases ha : a.published_time with _ | x <;> rcases hb : b.published_time with _ | y <;>
    rcases hc : c.published_time with _ | z <;> rw [ha, hb] at hab <;> rw [hb, hc] at hbc <;>
    simp only at hab hbc ⊢
  · by_contra hcon
    simp only [Bool.not_eq_false] at hcon
    rcases lexLt_or_of_lexLt _ b.path.data _ hcon with h | h
    · simp [hab] at h
    · simp [hbc] at h
  · omega

instance : IsTotal ArticleIndex articleLE := by
  constructor
  intro a b
  rw [articleLE_iff, articleLE_iff]
  rcases ha : a.published_time with _ | x <;> rcases hb : b.published_time with _ | y <;>
    simp only
  · by_cases h : lexLt a.path.data b.path.data = true
    · right
      by_contra hcon
      simp only [Bool.not_eq_false] at hcon
      exact lexLt_asymm _ _ h hcon
    · left
      simpa using h
  · left; trivial
  · right; trivial
  · omega

/-- The comparator order implies the claim relation. -/
theorem articleLE_imp_spec (a b : ArticleIndex) (h : articleLE a b) : specSortedBefore a b :=
  (articleLE_iff a b).mp h

/-- Frontmatter carrying only a date, for the sorting example. -/
def dateFM (d : String) : FrontMatter :=
  fun k => if k = "date" then some (FMValue.str d) else none

/-- Environment of the sorting example: three articles, `a` undated, `b`
dated 2020-01-01 and `c` dated 2021-01-01 via sidecar frontmatter. -/
def sortExampleEnv : FsEnv :=
  ⟨true,
   ["articles/a.md", "articles/b.md", "articles/c.md"],
   fun _ => MdNode.parent "root" none none [],
   fun p => if p = "articles/b.md" then some (dateFM "2020-01-01")
            else if p = "articles/c.md" then some (dateFM "2021-01-01") else none,
   ⟨fun _ => none, fun _ => none⟩,
   fun _ => false⟩

/-- C1: every registry produced by collectArticles has its orderedArticles
pairwise in the claimed order - undated before dated, undated descending
by path, dated descending by parsed date - and the three-article example
sorts to a, c, b. -/
theorem C1_ordered_articles :
    (∀ (env : FsEnv) (config : Config) (reg : ArticleRegistry),
      collectArticles env config = Except.ok reg →
      reg.orderedArticles.Pairwise specSortedBefore)
    ∧ (collectArticles sortExampleEnv defaultConfig).toOption.map
        (fun reg => reg.orderedArticles.map ArticleIndex.path) = some ["a", "c", "b"] := by
  constructor
  · intro env config reg h
    unfold collectArticles at h
    split at h
    · exact absurd h (by simp)
    · cases h
      exact List.Pairwise.imp (fun hle => articleLE_imp_spec _ _ hle)
        (List.sorted_insertionSort articleLE _)
  · rfl

/-- Registry computed by the sorting example, named for the witness. -/
def sortExampleRegistry : ArticleRegistry :=
  ((collectArticles sortExampleEnv defaultConfig).toOption).getD ⟨[], []⟩

/-- Witness applying the C1 sortedness at the example environment. -/
theorem C1_witness : sortExampleRegistry.orderedArticles.Pairwise specSortedBefore :=
  C1_ordered_articles.1 sortExampleEnv defaultConfig sortExampleRegistry rfl

/-- Environment with a missing articles root, for the C8 witness. -/
def noRootEnv : FsEnv :=
  ⟨false, [], fun _ => rootLeaf, fun _ => none, ⟨fun _ => none, fun _ => none⟩, fun _ => false⟩

/-- C8: a missing articles root makes collectArticles fail with the fatal
error and makes the whole run abort with no artifact produced, and within
the embedding collectArticles fails exactly in this case. -/
theorem C8_missing_root :
    ∀ (env : FsEnv) (config : Config),
      (env.rootExists = false →
        collectArticles env config = Except.error missingArticlesMessage
        ∧ execute env config = Except.error missingArticlesMessage)
      ∧ ((∃ e, collectArticles env config = Except.error e) ↔ env.rootExists = false) := by
  intro env config
  constructor
  · intro h
    have h1 : collectArticles env config = Except.error missingArticlesMessage := by
      unfold collectArticles
      rw [h]
      simp
    refine ⟨h1, ?_⟩
    unfold execute
    rw [h1]
  · constructor
    · rintro ⟨e, he⟩
      cases hr : env.rootExists
      · rfl
      · unfold collectArticles at he
        rw [hr] at he
        simp at he
    · intro h
      refine ⟨missingArticlesMessage, ?_⟩
      unfold collectArticles
      rw [h]
      simp

/-- Witness applying C8 at a concrete environment without the root. -/
theorem C8_witness :
    collectArticles noRootEnv defaultConfig = Except.error missingArticlesMessage
    ∧ execute noRootEnv defaultConfig = Except.error missingArticlesMessage :=
  (C8_missing_root noRootEnv defaultConfig).1 rfl

/-- Lookup after assignment on the object model. -/
theorem objGet_objSet {T : Type} :
    ∀ (m : List (String × T)) (k k' : String) (v : T),
      objGet (objSet m k v) k' = if k = k' then some v else objGet m k' := by
  intro m
  induction m with
  | nil =>
    intro k k' v
    simp [objSet, objGet]
  | cons kv rest ih =>
    intro k k' v
    simp only [objSet]
    by_cases h1 : kv.1 = k
    · rw [if_pos h1]
      simp only [objGet]
      by_cases h2 : k = k'
      · rw [if_pos h2, if_pos h2]
      · rw [if_neg h2, if_neg h2, if_neg (fun hh : kv.1 = k' => h2 (by rw [h1] at hh; exact hh))]
    · rw [if_neg h1]
      simp only [objGet]
      rw [ih]
      by_cases h2 : kv.1 = k'
      · have h3 : ¬ k = k' := fun hh => h1 (by rw [hh]; exact h2)
        rw [if_pos h2, if_neg h3, if_pos h2]
      · rw [if_neg h2]
        by_cases h3 : k = k'
        · rw [if_pos h3, if_pos h3]
        · rw [if_neg h3, if_neg h3, if_neg h2]

/-- A key is present in the object model exactly when it is among the
first components. -/
theorem objGet_isSome_iff {T : Type} :
    ∀ (m : List (String × T)) (k : String),
      (objGet m k).isSome = true ↔ k ∈ m.map Prod.fst := by
  intro m
  induction m with
  | nil => intro k; simp [objGet]
  | cons kv rest ih =>
    intro k
    simp only [objGet, List.map_cons, List.mem_cons]
    by_cases h : kv.1 = k
    · simp [h]
    · rw [if_neg h, ih]
      constructor
      · exact fun hmem => Or.inr hmem
      · rintro (h1 | h1)
        · exact absurd h1.symm h
        · exact h1

/-- Lookup after a register step on the nested object model. -/
theorem objGet_register {T : Type}
    (m : List (String × List (String × T))) (k1 k2 t : String) (v : T) :
    objGet (register m k1 k2 v) t =
      if k1 = t then some (objSet ((objGet m k1).getD []) k2 v) else objGet m t := by
  unfold register
  rw [objGet_objSet]

/-- Key presence across the inner tag loop of collectTags. -/
theorem registerTagsAux_isSome :
    ∀ (ts : List String) (acc : List (String × List (String × ArticleIndex)))
      (p : String) (idx : ArticleIndex) (t : String),
      (objGet (ts.foldl (fun a tag => register a tag p idx) acc) t).isSome = true ↔
        t ∈ ts ∨ (objGet acc t).isSome = true := by
  intro ts
  induction ts with
  | nil =>
    intro acc p idx t
    simp
  | cons tag rest ih =>
    intro acc p idx t
    simp only [List.foldl_cons]
    rw [ih]
    constructor
    · rintro (h | h)
      · exact Or.inl (List.mem_cons_of_mem _ h)
      · rw [objGet_register] at h
        by_cases h2 : tag = t
        · exact Or.inl (h2 ▸ List.mem_cons_self _ _)
        · rw [if_neg h2] at h
          exact Or.inr h
    · rintro (h | h)
      · rcases List.mem_cons.mp h with h2 | h2
        · right
          rw [objGet_register, if_pos h2.symm]
          rfl
        · exact Or.inl h2
      · right
        rw [objGet_register]
        by_cases h2 : tag = t
        · rw [if_pos h2]; rfl
        · rw [if_neg h2]; exact h

/-- Key presence across one article of the tag loop. -/
theorem registerArticleTags_isSome (art : ArticleMetadata)
    (acc : List (String × List (String × ArticleIndex))) (t : String) :
    (objGet (registerArticleTags art acc) t).isSome = true ↔
      (∃ ts, art.tags = some ts ∧ t ∈ ts) ∨ (objGet acc t).isSome = true := by
  unfold registerArticleTags
  rcases h : art.tags with _ | ts
  · simp [h]
  · rw [registerTagsAux_isSome]
    constructor
    · rintro (h1 | h1)
      · exact Or.inl ⟨ts, rfl, h1⟩
      · exact Or.inr h1
    · rintro (⟨ts2, hts2, hmem⟩ | h1)
      · left
        cases hts2
        exact hmem
      · exact Or.inr h1

/-- Key presence across the whole first loop of collectTags. -/
theorem buildTagToArticles_isSome :
    ∀ (arts : List (String × ArticleMetadata))
      (acc : List (String × List (String × ArticleIndex))) (t : String),
      (objGet (buildTagToArticles arts acc) t).isSome = true ↔
        (∃ kv ∈ arts, ∃ ts, kv.2.tags = some ts ∧ t ∈ ts) ∨
          (objGet acc t).isSome = true := by
  intro arts
  induction arts with
  | nil =>
    intro acc t
    simp [buildTagToArticles]
  | cons kv rest ih =>
    intro acc t
    simp only [buildTagToArticles]
    rw [ih, registerArticleTags_isSome]
    constructor
    · rintro (⟨kv2, hkv2, hts⟩ | (h | h))
      · exact Or.inl ⟨kv2, List.mem_cons_of_mem _ hkv2, hts⟩
      · exact Or.inl ⟨kv, List.mem_cons_self _ _, h⟩
      · exact Or.inr h
    · rintro (⟨kv2, hkv2, hts⟩ | h)
      · rcases List.mem_cons.mp hkv2 with h2 | h2
        · subst h2
          exact Or.inr (Or.inl hts)
        · exact Or.inl ⟨kv2, h2, hts⟩
      · exact Or.inr (Or.inr h)

/-- Values stored by the inner tag loop come from its article. -/
theorem objGet2_registerTagsAux :
    ∀ (ts : List String) (acc : List (String × List (String × ArticleIndex)))
      (p : String) (idx : ArticleIndex) (t q : String) (w : ArticleIndex),
      objGet ((objGet (ts.foldl (fun a tag => register a tag p idx) acc) t).getD []) q =
        some w →
      (q = p ∧ w = idx) ∨ objGet ((objGet acc t).getD []) q = some w := by
  intro ts
  induction ts with
  | nil =>
    intro acc p idx t q w h
    exact Or.inr h
  | cons tag rest ih =>
    intro acc p idx t q w h
    simp only [List.foldl_cons] at h
    rcases ih _ p idx t q w h with h1 | h1
    · exact Or.inl h1
    · rw [objGet_register] at h1
      by_cases h2 : tag = t
      · rw [if_pos h2] at h1
        simp only [Option.getD_some] at h1
        rw [objGet_objSet] at h1
        by_cases h3 : p = q
        · rw [if_pos h3] at h1
          exact Or.inl ⟨h3.symm, (Option.some_inj.mp h1).symm⟩
        · rw [if_neg h3] at h1
          right
          rw [h2] at h1
          exact h1
      · rw [if_neg h2] at h1
        exact Or.inr h1

/-- Values stored for one article come from that article. -/
theorem objGet2_registerArticleTags (art : ArticleMetadata)
    (acc : List (String × List (String × ArticleIndex))) (t q : String)
    (w : ArticleIndex) :
    objGet ((objGet (registerArticleTags art acc) t).getD []) q = some w →
    (q = art.path ∧ w = makeArticleIndex art) ∨
      objGet ((objGet acc t).getD []) q = some w := by
  unfold registerArticleTags
  rcases h : art.tags with _ | ts
  · exact fun hh => Or.inr hh
  · intro hh
    exact objGet2_registerTagsAux ts acc art.path (makeArticleIndex art) t q w hh

/-- Values stored by the whole first loop come from registry articles. -/
theorem objGet2_buildTagToArticles :
    ∀ (arts : List (String × ArticleMetadata))
      (acc : List (String × List (String × ArticleIndex))) (t q : String)
      (w : ArticleIndex),
      objGet ((objGet (buildTagToArticles arts acc) t).getD []) q = some w →
      (∃ kv ∈ arts, q = kv.2.path ∧ w = makeArticleIndex kv.2) ∨
        objGet ((objGet acc t).getD []) q = some w := by
  intro arts
  induction arts with
  | nil =>
    intro acc t q w h
    exact Or.inr h
  | cons kv rest ih =>
    intro acc t q w h
    simp only [buildTagToArticles] at h
    rcases ih _ t q w h with h1 | h1
    · rcases h1 with ⟨kv2, hm, hq, hw⟩
      exact Or.inl ⟨kv2, List.mem_cons_of_mem _ hm, hq, hw⟩
    · rcases objGet2_registerArticleTags kv.2 acc t q w h1 with h2 | h2
      · exact Or.inl ⟨kv, List.mem_cons_self _ _, h2⟩
      · exact Or.inr h2

/-- Lookup across the second loop of collectTags. -/
theorem objGet_buildTags (env : FsEnv) (config : Config) :
    ∀ (keys : List String) (acc : List (String × TagMetadata)) (k : String),
      objGet (buildTags env config keys acc) k =
        if k ∈ keys then some (collectTagMetadata env config k) else objGet acc k := by
  intro keys
  induction keys with
  | nil =>
    intro acc k
    simp [buildTags]
  | cons key rest ih =>
    intro acc k
    simp only [buildTags]
    rw [ih]
    by_cases h1 : k ∈ rest
    · rw [if_pos h1, if_pos (List.mem_cons_of_mem _ h1)]
    · rw [if_neg h1]
      by_cases h2 : k = key
      · subst h2
        rw [if_pos (List.mem_cons_self _ _), objGet_objSet, if_pos rfl]
      · have h3 : k ∉ key :: rest := by
          intro hmem
          rcases List.mem_cons.mp hmem with hh | hh
          · exact h2 hh
          · exact h1 hh
        rw [if_neg h3, objGet_objSet, if_neg (fun hh => h2 hh.symm)]

/-- Title equation of a collected article, shared by the tag theorems. -/
theorem collectArticle_title (penv : ParseEnv) (ast : MdNode)
    (sidecar : Option FrontMatter) (mdPath apath : String) (config : Config) :
    (collectArticle penv ast sidecar mdPath apath config).title =
      match (fmNamespace (mergeFrontmatter
          (extractFrontmatter penv.parseYaml penv.parseToml ast) sidecar)).bind
          KleinboyFrontMatter.title with
      | some t => t
      | none => (extractTitle ast).getD (config.untitled.getD "(Untitled)") := rfl

/-- Article of the tag example: path p1 tagged go. -/
def goArticle : ArticleMetadata :=
  ⟨"p1", some "markdown", some "articles/p1.md", "P1", some "", some ["go"], some [],
   none, none, none⟩

/-- Registry of the tag example. -/
def tagExampleRegistry : ArticleRegistry := ⟨[("p1", goArticle)], []⟩

/-- Tag page document headed "Go Lang". -/
def goHeadingAST : MdNode :=
  MdNode.parent "root" none none
    [MdNode.parent "heading" none none [MdNode.leaf "text" (some "Go Lang") none]]

/-- Environment of the tag example: the page tags/go.md exists and parses
to the Go Lang heading document. -/
def tagExampleEnv : FsEnv :=
  ⟨true, [], fun _ => goHeadingAST, fun _ => none, ⟨fun _ => none, fun _ => none⟩,
   fun k => k == "go"⟩

/-- C7: a tag key is registered exactly when some article of the registry
carries it; every key of tagToArticles has a tags entry; every stored
article index is the projection of an article of the owning registry; the
display title is the collected tag page title when the page exists and the
raw key otherwise; the go example registers tags/go.md with title
"Go Lang" and links article p1. -/
theorem C7_tag_registry :
    (∀ (env : FsEnv) (reg : ArticleRegistry) (config : Config) (t : String),
        ((objGet (collectTags env reg config).tags t).isSome = true ↔
          (objGet (collectTags env reg config).tagToArticles t).isSome = true)
      ∧ ((objGet (collectTags env reg config).tagToArticles t).isSome = true ↔
          ∃ kv ∈ reg.articles, ∃ ts, kv.2.tags = some ts ∧ t ∈ ts)
      ∧ (∀ (inner : List (String × ArticleIndex)) (p : String) (idx : ArticleIndex),
          objGet (collectTags env reg config).tagToArticles t = some inner →
          objGet inner p = some idx →
          ∃ kv ∈ reg.articles, p = kv.2.path ∧ idx = makeArticleIndex kv.2)
      ∧ (∀ tm : TagMetadata, objGet (collectTags env reg config).tags t = some tm →
          tm = collectTagMetadata env config t
          ∧ tm.title = (if env.tagPageExists t then
              (collectArticle env.parse (env.fileAST (tagPagePathOf t))
                (env.fileSidecar (tagPagePathOf t)) (tagPagePathOf t) ("tags/" ++ t)
                config).title
            else t)))
    ∧ (objGet (collectTags tagExampleEnv tagExampleRegistry defaultConfig).tags "go").map
        TagMetadata.title = some "Go Lang"
    ∧ (objGet ((objGet (collectTags tagExampleEnv tagExampleRegistry
        defaultConfig).tagToArticles "go").getD []) "p1").isSome = true := by
  refine ⟨?_, rfl, rfl⟩
  intro env reg config t
  have htags : (collectTags env reg config).tags =
      buildTags env config ((buildTagToArticles reg.articles []).map Prod.fst) [] := rfl
  have ht2a : (collectTags env reg config).tagToArticles =
      buildTagToArticles reg.articles [] := rfl
  refine ⟨?_, ?_, ?_, ?_⟩
  · rw [htags, ht2a, objGet_buildTags, objGet_isSome_iff]
    by_cases hk : t ∈ (buildTagToArticles reg.articles []).map Prod.fst
    · simp [hk]
    · simp [hk, objGet]
  · rw [ht2a]
    have h := buildTagToArticles_isSome reg.articles [] t
    simpa [objGet] using h
  · intro inner p idx h1 h2
    rw [ht2a] at h1
    have h3 : objGet ((objGet (buildTagToArticles reg.articles []) t).getD []) p =
        some idx := by
      rw [h1]
      exact h2
    rcases objGet2_buildTagToArticles reg.articles [] t p idx h3 with h4 | h4
    · exact h4
    · simp [objGet] at h4
  · intro tm htm
    rw [htags, objGet_buildTags] at htm
    by_cases hk : t ∈ (buildTagToArticles reg.articles []).map Prod.fst
    · rw [if_pos hk] at htm
      have htm2 : tm = collectTagMetadata env config t := (Option.some_inj.mp htm).symm
      refine ⟨htm2, ?_⟩
      subst htm2
      unfold collectTagMetadata
      split_ifs <;> rfl
    · rw [if_neg hk] at htm
      simp [objGet] at htm

/-- Witness applying the C7 index soundness at the go example. -/
theorem C7_witness :
    ∃ kv ∈ tagExampleRegistry.articles,
      "p1" = kv.2.path ∧ makeArticleIndex goArticle = makeArticleIndex kv.2 :=
  (C7_tag_registry.1 tagExampleEnv tagExampleRegistry defaultConfig "go").2.2.1
    [("p1", makeArticleIndex goArticle)] "p1" (makeArticleIndex goArticle) rfl rfl

/-- C10: when a dedicated tag page exists but yields neither a namespace
title nor a heading, the display title is the configured untitled default,
coming from collectArticle rather than the raw key. -/
theorem C10_untitled_tag_page :
    ∀ (env : FsEnv) (reg : ArticleRegistry) (config : Config) (key : String)
      (tm : TagMetadata),
      env.tagPageExists key = true →
      extractTitle (env.fileAST (tagPagePathOf key)) = none →
      (fmNamespace (mergeFrontmatter
          (extractFrontmatter env.parse.parseYaml env.parse.parseToml
            (env.fileAST (tagPagePathOf key)))
          (env.fileSidecar (tagPagePathOf key)))).bind KleinboyFrontMatter.title = none →
      objGet (collectTags env reg config).tags key = some tm →
      tm.title = config.untitled.getD "(Untitled)" := by
  intro env reg config key tm hpage htitle hns htm
  have htags : (collectTags env reg config).tags =
      buildTags env config ((buildTagToArticles reg.articles []).map Prod.fst) [] := rfl
  rw [htags, objGet_buildTags] at htm
  by_cases hk : key ∈ (buildTagToArticles reg.articles []).map Prod.fst
  · rw [if_pos hk] at htm
    have htm2 : tm = collectTagMetadata env config key := (Option.some_inj.mp htm).symm
    subst htm2
    unfold collectTagMetadata
    rw [if_pos hpage]
    simp only [collectArticle_title, hns, htitle, Option.getD_none]
  · rw [if_neg hk] at htm
    simp [objGet] at htm

/-- Environment of the untitled tag page example: the page for tag x
exists but has no heading and no frontmatter. -/
def untitledTagEnv : FsEnv :=
  ⟨true, [], fun _ => MdNode.parent "root" none none [], fun _ => none,
   ⟨fun _ => none, fun _ => none⟩, fun k => k == "x"⟩

/-- Article tagged x, for the untitled tag page example. -/
def xArticle : ArticleMetadata :=
  ⟨"p2", some "markdown", some "articles/p2.md", "P2", some "", some ["x"], some [],
   none, none, none⟩

/-- Registry of the untitled tag page example. -/
def untitledTagRegistry : ArticleRegistry := ⟨[("p2", xArticle)], []⟩

/-- Witness applying C10 at the concrete untitled tag page. -/
theorem C10_witness :
    (collectTagMetadata untitledTagEnv defaultConfig "x").title = "(Untitled)"
    ∧ ("(Untitled)" : String) ≠ "x" :=
  ⟨C10_untitled_tag_page untitledTagEnv untitledTagRegistry defaultConfig "x"
     (collectTagMetadata untitledTagEnv defaultConfig "x") rfl rfl rfl rfl,
   by decide⟩

end Kleinboy






